import Mathlib

/-!
Verification development for the pose-variation generator application.

The embedding translates the TypeScript sources:
  * `src/services/geminiService.ts` — data-URL parsing (`fileToGenerativePart`),
    request-part assembly (`generatePosedVariation`), and response image
    extraction (`extractImageData`);
  * `src/App.tsx` — the prompt-selection policy of `handleGenerate` and the
    bounded-concurrency dispatcher (`processQueue` / `processNext`).

JavaScript strings are modelled through their character lists (`String.data`),
JavaScript truthiness of `string | undefined` fields by `truthy`, thrown
JavaScript values by `JSError`, and the single-threaded cooperative scheduling
of the five async workers by a small-step transition relation whose atomic
steps are exactly the synchronous code blocks between `await` suspension
points.
-/

/-! ## JavaScript string primitives -/

/-- Character set treated as whitespace by JavaScript's `String.prototype.trim`:
the ECMAScript WhiteSpace set — TAB, VT, FF, SP, NBSP, ZWNBSP/BOM and the
Unicode Zs spaces (U+1680, U+2000 through U+200A, U+202F, U+205F, U+3000) —
together with the LineTerminator set (LF, CR, LS, PS). -/
def jsWhitespaceChar (c : Char) : Bool :=
  c == ' ' || c == '\t' || c == '\n' || c == '\r' || c == '\x0b' || c == '\x0c' ||
  c.toNat == 0xa0 || c.toNat == 0x1680 ||
  (decide (0x2000 ≤ c.toNat) && decide (c.toNat ≤ 0x200a)) ||
  c.toNat == 0x202f || c.toNat == 0x205f || c.toNat == 0x3000 ||
  c.toNat == 0x2028 || c.toNat == 0x2029 || c.toNat == 0xfeff

/-- JavaScript `s.trim()`: strip leading and trailing whitespace. -/
def jsTrim (s : String) : String :=
  String.mk (((s.data.dropWhile jsWhitespaceChar).reverse.dropWhile jsWhitespaceChar).reverse)

/-- `charsStartWith p c` holds when the character list `c` begins with `p`. -/
def charsStartWith : List Char → List Char → Bool
  | [], _ => true
  | _ :: _, [] => false
  | p :: ps, c :: cs => p == c && charsStartWith ps cs

/-- JavaScript line terminators, which `.` in a regular expression never
matches: LF, CR, LS, PS. -/
def jsLineTerm (c : Char) : Bool :=
  c == '\n' || c == '\r' || c.toNat == 0x2028 || c.toNat == 0x2029

/-! ## geminiService.ts : parts, data-URL parsing -/

/-- The `inlineData` payload of a request/response part
(`{ data, mimeType }`). -/
structure InlineData where
  mimeType : String
  data : String
deriving Repr, DecidableEq

/-- One request/response part: either inline image data or text.  The SDK
part type is a record with optional fields; the code only ever builds or reads
parts of exactly one of these two shapes. -/
inductive GPart where
  | inlineP (d : InlineData) : GPart
  | textP (t : String) : GPart
deriving Repr, DecidableEq

/-- Attempt to strip one alternative of the anchored regular expression
`^data:(image\/(?:png|jpeg|webp));base64,(.*)$`: test the fixed prefix and
require that the remainder (matched by `(.*)$`, which cannot cross a line
terminator) contains no line terminator. -/
def stripDataUrl (s : String) (pre : String) (mime : String) : Option (String × String) :=
  if charsStartWith pre.data s.data then
    let rest := s.data.drop pre.data.length
    if rest.any jsLineTerm then none else some (mime, String.mk rest)
  else none

/-- The match of `dataUrl` against
`^data:(image\/(?:png|jpeg|webp));base64,(.*)$`, returning the captured
MIME type and base64 payload (nothing about base64 validity is checked by
this pattern — `(.*)` accepts any line-terminator-free payload). -/
def dataUrlMatch (s : String) : Option (String × String) :=
  (stripDataUrl s "data:image/png;base64," "image/png").orElse (fun _ =>
    (stripDataUrl s "data:image/jpeg;base64," "image/jpeg").orElse (fun _ =>
      stripDataUrl s "data:image/webp;base64," "image/webp"))

/-- `fileToGenerativePart` from geminiService.ts: match the data URL against
the pattern; on failure throw `Error('Invalid data URL format')` (modelled as
`Except.error`), otherwise build the inline-data part. -/
def fileToGenerativePart (dataUrl : String) : Except String GPart :=
  match dataUrlMatch dataUrl with
  | none => Except.error "Invalid data URL format"
  | some (mime, payload) => Except.ok (GPart.inlineP { mimeType := mime, data := payload })

/-! ## geminiService.ts : generatePosedVariation prompt assembly -/

/-- The `PoseGuidance` argument record; each field is `string | undefined` in
the source, modelled as `Option String`. -/
structure PoseGuidance where
  text : Option String := none
  referenceImage : Option String := none
  sketchImage : Option String := none
deriving Repr, DecidableEq

/-- JavaScript truthiness of a `string | undefined` value: `undefined` and the
empty string are falsy, every other string is truthy. -/
def truthy : Option String → Bool
  | none => false
  | some s => !(s == "")

/-- The value of `guidance.text` where the code reads it (after a truthiness
check); `undefined` never reaches a read, so the default is irrelevant. -/
def guidanceText (g : PoseGuidance) : String := g.text.getD ""

/-- The fixed prompt template opening `generatePosedVariation`'s instruction
text (the template literal assigned to `prompt`). -/
def basePrompt : String :=
  "Your task is to regenerate the person from the provided primary model image.\n\n**CRITICAL INSTRUCTIONS (MUST be followed):**\n1.  **Preserve Identity & Outfit:** The person\x27s face, body, and clothing in the generated image MUST be 100% identical to the primary model image (the first image provided). This is the most important rule.\n2.  **Apply New Pose/Angle:** Change the person\x27s pose and the camera angle according to the specific guidance provided below.\n3.  **Vary Background & Style:** The background should be new, diverse, and photorealistic, complementing the new pose. The overall photographic style (e.g., lighting, mood) can also be varied creatively.\n"

/-- The fixed pose-guidance clause appended when a reference image is given. -/
def refGuidanceClause : String :=
  "\n**Pose Guidance:** The second image provided is a pose reference. Re-create the person from the primary model image in the exact pose shown in the reference image. The identity and clothing must come from the primary model image; ONLY the pose comes from the reference image."

/-- The fixed pose-guidance clause appended when a sketch image is given. -/
def sketchGuidanceClause : String :=
  "\n**Pose Guidance:** The second image provided is a sketch. Re-create the person from the primary model image following the pose and composition outlined in the sketch. The identity and clothing must come from the primary model image."

/-- The pose-guidance clause appended in the text branch, containing the
caller's text. -/
def textGuidanceClause (t : String) : String :=
  "\n**Pose Guidance:** Re-create the person in this specific pose/style: \"" ++ t ++ "\""

/-- The refinement clause appended when an image-guidance mode also carries
custom text. -/
def refinementClause (t : String) : String :=
  "\n**Refinement:** Additionally, apply the following style: \"" ++ t ++ "\"."

/-- The single pose-guidance clause chosen by the `if / else if / else if`
chain over the guidance record (reference image wins over sketch, which wins
over text; otherwise nothing is appended). -/
def modeClause (g : PoseGuidance) : String :=
  if truthy g.referenceImage then refGuidanceClause
  else if truthy g.sketchImage then sketchGuidanceClause
  else if truthy g.text then textGuidanceClause (guidanceText g)
  else ""

/-- The refinement suffix: appended exactly when
`(guidance.referenceImage || guidance.sketchImage) && guidance.text &&
guidance.text.trim() !== ''`. -/
def refineSuffix (g : PoseGuidance) : String :=
  if (truthy g.referenceImage || truthy g.sketchImage) && truthy g.text
      && !(jsTrim (guidanceText g) == "") then
    refinementClause (guidanceText g)
  else ""

/-- The full instruction text `prompt` accumulated by
`generatePosedVariation` before it is pushed as the final text part. -/
def posePrompt (g : PoseGuidance) : String :=
  basePrompt ++ modeClause g ++ refineSuffix g

/-- At least one guidance image field is truthy. -/
def hasGuidanceImage (g : PoseGuidance) : Bool :=
  truthy g.referenceImage || truthy g.sketchImage

/-- The request-assembly phase of `generatePosedVariation`: everything the
function executes before `await callGeminiImageModel(parts)`.
`Except.ok parts` means assembly succeeded and exactly one network call is
then made with `parts`; `Except.error` is an exception thrown before any
network call. -/
def generatePosedVariationRequest (modelImage : String) (g : PoseGuidance) :
    Except String (List GPart) :=
  match fileToGenerativePart modelImage with
  | Except.error e => Except.error e
  | Except.ok mp =>
    if truthy g.referenceImage then
      match fileToGenerativePart (g.referenceImage.getD "") with
      | Except.error e => Except.error e
      | Except.ok gp => Except.ok [mp, gp, GPart.textP (posePrompt g)]
    else if truthy g.sketchImage then
      match fileToGenerativePart (g.sketchImage.getD "") with
      | Except.error e => Except.error e
      | Except.ok gp => Except.ok [mp, gp, GPart.textP (posePrompt g)]
    else
      Except.ok [mp, GPart.textP (posePrompt g)]

/-! ## geminiService.ts : extractImageData -/

/-- The fields of `response.candidates[0]` that `extractImageData` reads:
`content.parts` and `finishReason`. -/
structure Candidate where
  parts : List GPart
  finishReason : String
deriving Repr, DecidableEq

/-- The `for` loop of `extractImageData`: the first part whose `inlineData`
field is set. -/
def firstInline : List GPart → Option InlineData
  | [] => none
  | GPart.inlineP d :: _ => some d
  | GPart.textP _ :: rest => firstInline rest

/-- Whether a part carries inline image data. -/
def isInlinePart : GPart → Bool
  | GPart.inlineP _ => true
  | GPart.textP _ => false

/-- The message of the error thrown when generation stopped for an abnormal
reason (the `GenerationRefused` case of the specification, carrying the stop
reason). -/
def refusedMessage (reason : String) : String :=
  "Image generation stopped due to: " ++ reason ++ ". Check safety ratings."

/-- The message of the error thrown when no image part is present and the stop
reason is normal (the `NoImageProduced` case of the specification). -/
def noImageMessage : String :=
  "No image was generated. The model may have refused the request."

/-- `extractImageData` from geminiService.ts: return the first inline image
re-encoded as a data URI, else throw the stop-reason error when
`finishReason` is neither `'STOP'` nor `'MAX_TOKENS'`, else throw the
no-image error. -/
def extractImageData (c : Candidate) : Except String String :=
  match firstInline c.parts with
  | some d => Except.ok ("data:" ++ d.mimeType ++ ";base64," ++ d.data)
  | none =>
    if !(c.finishReason == "STOP") && !(c.finishReason == "MAX_TOKENS") then
      Except.error (refusedMessage c.finishReason)
    else
      Except.error noImageMessage

/-- Modelled from the spec: RFC 4648 base64 validity ("not valid base64" in
the specification's error conditions, a check the repository itself never
performs).  A valid encoding has length divisible by four, at most two
trailing `=` padding characters, and otherwise only alphanumeric characters,
`+` and `/`. -/
def specValidBase64 (s : String) : Bool :=
  let cs := s.data
  let core := (cs.reverse.dropWhile (fun c => c == '=')).reverse
  (cs.length % 4 == 0) && decide (cs.length - core.length ≤ 2)
    && core.all (fun c => c.isAlphanum || c == '+' || c == '/')

/-! ## App.tsx : prompt-selection policy -/

/-- The fixed pose catalog `RANDOM_POSES`. -/
def RANDOM_POSES : List String :=
  [ "A full-body shot, walking confidently towards the camera.",
    "A portrait taken from a side profile.",
    "A three-quarter portrait, looking thoughtfully away.",
    "A medium shot with arms crossed, looking at the camera.",
    "A dynamic full-body shot captured mid-jump.",
    "A photo taken from a high angle, looking down.",
    "A close-up, glancing over their shoulder.",
    "A full-body shot in a crouching pose.",
    "A candid-style photo, captured in an unposed moment.",
    "A professional headshot from the chest up with a friendly smile." ]

/-- The `prompts` array of `handleGenerate`: if `customPrompt.trim() !== ''`
then `Array(numVariations).fill(customPrompt)`, otherwise one independent
draw `RANDOM_POSES[Math.floor(Math.random() * RANDOM_POSES.length)]` per
element.  The stubbed random source `rand` yields the floored draw for each
array position; `Math.random() < 1` makes every draw a valid index. -/
def promptsFor (customPrompt : String) (numVariations : Nat)
    (rand : Nat → Fin RANDOM_POSES.length) : List String :=
  if !(jsTrim customPrompt == "") then
    List.replicate numVariations customPrompt
  else
    (List.range numVariations).map (fun i => RANDOM_POSES.get (rand i))

/-- A stubbed random source exercising the catalog branch: every draw floors
to index 3. -/
def poseDraw3 : Nat → Fin RANDOM_POSES.length := fun _ => ⟨3, by decide⟩

/-! ## App.tsx : the bounded-concurrency dispatcher -/

/-- Per-job status, exactly the `status`/`url`/`error` fields of
`GeneratedImage` (`'pending' | 'done' | 'error'`). -/
inductive JobStatus where
  | pending : JobStatus
  | done (url : String) : JobStatus
  | error (msg : String) : JobStatus
deriving Repr, DecidableEq

/-- A value thrown by a generation call: either a JavaScript `Error` carrying
its `message`, or any non-`Error` value. -/
inductive JSError where
  | errorVal (message : String) : JSError
  | otherVal : JSError
deriving Repr, DecidableEq

/-- The catch clause's message:
`e instanceof Error ? e.message : "An unknown error occurred during generation."`. -/
def errMessage : JSError → String
  | JSError.errorVal m => m
  | JSError.otherVal => "An unknown error occurred during generation."

/-- The settled result of one `generatePosedVariation(...)` call: the resolved
URL, or the thrown value. -/
inductive GenResult where
  | ok (url : String) : GenResult
  | thrown (e : JSError) : GenResult
deriving Repr, DecidableEq

/-- The terminal status a job receives from its settled generation call: the
`try` branch stores `done` with the URL, the `catch` branch stores `error`
with the captured message. -/
def finishStatus : GenResult → JobStatus
  | GenResult.ok url => JobStatus.done url
  | GenResult.thrown e => JobStatus.error (errMessage e)

/-- `true` on `done` and `error`, `false` on `pending`. -/
def isTerminal : JobStatus → Bool
  | JobStatus.pending => false
  | JobStatus.done _ => true
  | JobStatus.error _ => true

/-- `setGeneratedImages(prev => prev.map(img => img.id === index ? {...} : img))`:
replace the status of the entry whose id equals `i`. -/
def updateJob (jobs : List (Nat × JobStatus)) (i : Nat) (st : JobStatus) :
    List (Nat × JobStatus) :=
  jobs.map (fun x => if x.1 = i then (x.1, st) else x)

/-- The status recorded for id `i` (the id list is duplicate-free in every
reachable state, so `find?` is unambiguous). -/
def statusAt (jobs : List (Nat × JobStatus)) (i : Nat) : Option JobStatus :=
  (jobs.find? (fun x => x.1 == i)).map (fun x => x.2)

/-- `const concurrencyLimit = 5;` -/
def concurrencyLimit : Nat := 5

/-- The dispatcher state between suspension points.  Workers are anonymous
async closures in the source (`Array(concurrencyLimit).fill(null).map(...)`),
so they are represented by what they hold: `flight` lists the job index each
worker currently awaiting its generation call has claimed (in claim order),
`nIdle` counts workers whose settled call has been processed but whose loop
continuation has not yet run, and `nDone` counts workers whose async function
has returned.  `queue` is the shared queue of unclaimed job indices,
`jobs` the `generatedImages` array, `completed` the shared `completedCount`,
and `claims` the history of indices taken from the queue, in claim order. -/
structure DState where
  queue : List Nat
  flight : List Nat
  nIdle : Nat
  nDone : Nat
  jobs : List (Nat × JobStatus)
  completed : Nat
  claims : List Nat
deriving Repr, DecidableEq

/-- The state after `setGeneratedImages(prompts.map((_, i) => ({ id: i,
status: 'pending' })))` and `const queue = [...prompts.entries()]`, before any
worker is created: all `N` jobs pending, the queue holding the indices
`0, …, N-1` in ascending order. -/
def initState (N : Nat) : DState :=
  { queue := List.range N
    flight := []
    nIdle := 0
    nDone := 0
    jobs := (List.range N).map (fun i => (i, JobStatus.pending))
    completed := 0
    claims := [] }

/-- Creation of one worker: its async body runs synchronously up to its first
`await`.  With a non-empty queue it shifts the next index and suspends on the
generation call (entering `flight`); with an empty queue the `while` guard
fails and the worker returns immediately. -/
def spawn (s : DState) : DState :=
  match s.queue with
  | [] => { s with nDone := s.nDone + 1 }
  | i :: rest =>
    { s with queue := rest, flight := s.flight ++ [i], claims := s.claims ++ [i] }

/-- `K` successive worker creations (the `.map` over `Array(K)` runs them
one after another on the single thread). -/
def spawnN : Nat → DState → DState
  | 0, s => s
  | k + 1, s => spawn (spawnN k s)

/-- The dispatcher state once all `K` workers have been created and the
synchronous part of `processQueue` has finished. -/
def launchState (K N : Nat) : DState := spawnN K (initState N)

/-- Delivery of the settled generation call of the worker at position `p` of
`flight`: the remainder of `processNext` runs synchronously — the job's
terminal status is published and `completedCount` incremented — after which
the worker's `await processNext()` continuation is pending (the worker
becomes idle). -/
def publishAt (outcome : Nat → GenResult) (s : DState) (p : Nat) : DState :=
  let i := s.flight.getD p 0
  { s with
      flight := s.flight.eraseIdx p
      nIdle := s.nIdle + 1
      jobs := updateJob s.jobs i (finishStatus (outcome i))
      completed := s.completed + 1 }

/-- The loop continuation of an idle worker: re-check the `while` guard; with
a non-empty queue shift the next index and suspend on its generation call,
otherwise return. -/
def proceedIdle (s : DState) : DState :=
  match s.queue with
  | [] => { s with nIdle := s.nIdle - 1, nDone := s.nDone + 1 }
  | j :: rest =>
    { s with queue := rest, nIdle := s.nIdle - 1,
             flight := s.flight ++ [j], claims := s.claims ++ [j] }

/-- One scheduling step of the cooperative runtime: deliver some in-flight
worker's settled call, or run some idle worker's loop continuation.
`outcome i` is how job `i`'s generation call settles. -/
inductive StepRel (outcome : Nat → GenResult) : DState → DState → Prop
  | publish (s : DState) (p : Nat) (hp : p < s.flight.length) :
      StepRel outcome s (publishAt outcome s p)
  | proceed (s : DState) (h : 0 < s.nIdle) :
      StepRel outcome s (proceedIdle s)

/-- Zero or more scheduling steps. -/
def StepsTo (outcome : Nat → GenResult) (s t : DState) : Prop :=
  Relation.ReflTransGen (StepRel outcome) s t

/-- The states a run with `N` jobs and `K` workers can be observed in at a
suspension point, for a given outcome oracle. -/
def Reach (outcome : Nat → GenResult) (K N : Nat) (s : DState) : Prop :=
  StepsTo outcome (launchState K N) s

/-- `isLoading` after `await processQueue()` has had the chance to resolve:
`Promise.all(workers)` settles exactly when every worker has returned
(no worker in flight or idle), and `setIsLoading(false)` then runs. -/
def isLoadingAfter (s : DState) : Bool :=
  !(s.flight.isEmpty && s.nIdle == 0)

/-! ## Helper lemmas : job-array lookup and update -/

theorem statusAt_cons (a : Nat × JobStatus) (tl : List (Nat × JobStatus)) (i : Nat) :
    statusAt (a :: tl) i = if a.1 = i then some a.2 else statusAt tl i := by
  by_cases h : a.1 = i
  · rw [if_pos h]
    unfold statusAt
    rw [List.find?_cons_of_pos _ (by simpa using h)]
    rfl
  · rw [if_neg h]
    unfold statusAt
    rw [List.find?_cons_of_neg _ (by simpa using h)]

theorem updateJob_cons (a : Nat × JobStatus) (tl : List (Nat × JobStatus)) (i : Nat)
    (st : JobStatus) :
    updateJob (a :: tl) i st = (if a.1 = i then (a.1, st) else a) :: updateJob tl i st := rfl

theorem map_fst_updateJob (jobs : List (Nat × JobStatus)) (i : Nat) (st : JobStatus) :
    (updateJob jobs i st).map Prod.fst = jobs.map Prod.fst := by
  induction jobs with
  | nil => rfl
  | cons a tl ih =>
    rw [updateJob_cons, List.map_cons, List.map_cons, ih]
    by_cases h : a.1 = i <;> simp [h]

theorem length_updateJob (jobs : List (Nat × JobStatus)) (i : Nat) (st : JobStatus) :
    (updateJob jobs i st).length = jobs.length := by
  simp [updateJob]

theorem updateJob_of_not_mem (jobs : List (Nat × JobStatus)) (i : Nat) (st : JobStatus)
    (h : i ∉ jobs.map Prod.fst) : updateJob jobs i st = jobs := by
  induction jobs with
  | nil => rfl
  | cons a tl ih =>
    rw [List.map_cons, List.mem_cons] at h
    push_neg at h
    rw [updateJob_cons, if_neg (fun hh => h.1 hh.symm), ih h.2]

theorem statusAt_updateJob_ne (jobs : List (Nat × JobStatus)) (i : Nat) (st : JobStatus)
    (j : Nat) (h : j ≠ i) :
    statusAt (updateJob jobs i st) j = statusAt jobs j := by
  induction jobs with
  | nil => rfl
  | cons a tl ih =>
    rw [updateJob_cons, statusAt_cons, statusAt_cons]
    by_cases ha : a.1 = i
    · have hne : ¬ a.1 = j := fun hh => h (hh.symm.trans ha)
      simp [ha, hne, ih, Ne.symm h]
    · by_cases hj : a.1 = j <;> simp [ha, hj, ih, h]

theorem statusAt_updateJob_self (jobs : List (Nat × JobStatus)) (i : Nat) (st : JobStatus)
    (hmem : i ∈ jobs.map Prod.fst) :
    statusAt (updateJob jobs i st) i = some st := by
  induction jobs with
  | nil => simp at hmem
  | cons a tl ih =>
    rw [updateJob_cons, statusAt_cons]
    by_cases ha : a.1 = i
    · simp [ha]
    · rw [List.map_cons, List.mem_cons] at hmem
      rcases hmem with hmem | hmem
      · exact absurd hmem.symm ha
      · simpa [ha] using ih hmem

theorem statusAt_mem_fst (jobs : List (Nat × JobStatus)) (i : Nat) (st : JobStatus)
    (h : statusAt jobs i = some st) : i ∈ jobs.map Prod.fst := by
  induction jobs with
  | nil => simp [statusAt] at h
  | cons a tl ih =>
    rw [statusAt_cons] at h
    by_cases ha : a.1 = i
    · exact List.mem_cons.mpr (Or.inl ha.symm)
    · rw [if_neg ha] at h
      exact List.mem_cons.mpr (Or.inr (ih h))

theorem statusAt_const (l : List Nat) (st0 : JobStatus) (i : Nat) :
    statusAt (l.map (fun j => (j, st0))) i = if i ∈ l then some st0 else none := by
  induction l with
  | nil => simp [statusAt]
  | cons a tl ih =>
    rw [List.map_cons, statusAt_cons, ih]
    by_cases ha : a = i
    · simp [ha, List.mem_cons]
    · have hia : ¬ i = a := fun hh => ha hh.symm
      simp [ha, hia, List.mem_cons]

theorem countP_updateJob (jobs : List (Nat × JobStatus)) (i : Nat) (st : JobStatus)
    (hnd : (jobs.map Prod.fst).Nodup) (hp : statusAt jobs i = some JobStatus.pending)
    (hst : isTerminal st = true) :
    (updateJob jobs i st).countP (fun x => isTerminal x.2) =
      jobs.countP (fun x => isTerminal x.2) + 1 := by
  induction jobs with
  | nil => simp [statusAt] at hp
  | cons a tl ih =>
    rw [List.map_cons, List.nodup_cons] at hnd
    rw [statusAt_cons] at hp
    rw [updateJob_cons]
    by_cases ha : a.1 = i
    · rw [if_pos ha] at hp ⊢
      have ha2 : a.2 = JobStatus.pending := by simpa using hp
      have htl : updateJob tl i st = tl :=
        updateJob_of_not_mem tl i st (ha ▸ hnd.1)
      rw [htl, List.countP_cons, List.countP_cons, ha2, hst]
      simp [isTerminal]
    · rw [if_neg ha] at hp ⊢
      rw [List.countP_cons, List.countP_cons, ih hnd.2 hp]
      omega

/-! ## Helper lemmas : list surgery at an index -/

theorem list_split_at {α : Type} (l : List α) (p : Nat) (hp : p < l.length) :
    l = l.take p ++ l[p] :: l.drop (p + 1) := by
  conv_lhs => rw [← List.take_append_drop p l]
  rw [List.drop_eq_getElem_cons hp]

theorem getD_not_mem_eraseIdx (l : List Nat) (p : Nat) (hp : p < l.length)
    (hnd : l.Nodup) : l.getD p 0 ∉ l.eraseIdx p := by
  rw [List.getD_eq_getElem l 0 hp, List.eraseIdx_eq_take_drop_succ]
  have hsplit := list_split_at l p hp
  rw [hsplit] at hnd
  rw [List.nodup_append] at hnd
  intro hmem
  rcases List.mem_append.mp hmem with h | h
  · exact hnd.2.2 h (List.mem_cons_self _ _)
  · exact (List.nodup_cons.mp hnd.2.1).1 h

theorem mem_eraseIdx_iff_of_ne (l : List Nat) (p : Nat) (hp : p < l.length) (j : Nat)
    (hj : j ≠ l.getD p 0) : j ∈ l.eraseIdx p ↔ j ∈ l := by
  rw [List.getD_eq_getElem l 0 hp] at hj
  rw [List.eraseIdx_eq_take_drop_succ]
  conv_rhs => rw [list_split_at l p hp]
  simp only [List.mem_append, List.mem_cons]
  constructor
  · rintro (h | h)
    · exact Or.inl h
    · exact Or.inr (Or.inr h)
  · rintro (h | h | h)
    · exact Or.inl h
    · exact absurd h hj
    · exact Or.inr h

theorem mem_of_mem_eraseIdx {l : List Nat} {p : Nat} {j : Nat}
    (h : j ∈ l.eraseIdx p) : j ∈ l :=
  (List.eraseIdx_sublist l p).subset h

theorem length_eraseIdx_of_lt (l : List Nat) (p : Nat) (hp : p < l.length) :
    (l.eraseIdx p).length = l.length - 1 := by
  rw [List.length_eraseIdx, if_pos hp]

/-! ## The dispatcher invariant -/

theorem finishStatus_ne_pending (r : GenResult) : finishStatus r ≠ JobStatus.pending := by
  cases r <;> simp [finishStatus]

theorem isTerminal_finishStatus (r : GenResult) : isTerminal (finishStatus r) = true := by
  cases r <;> simp [finishStatus, isTerminal]

/-- The state invariant maintained at every suspension point of a run with
`K` workers over `N` jobs whose generation calls settle according to
`outcome`. -/
structure DInv (K N : Nat) (outcome : Nat → GenResult) (s : DState) : Prop where
  workers : s.flight.length + s.nIdle + s.nDone = K
  ids : s.jobs.map Prod.fst = List.range N
  split : s.claims ++ s.queue = List.range N
  fnodup : s.flight.Nodup
  fclaimed : ∀ i ∈ s.flight, i ∈ s.claims
  pend : ∀ i, i < N →
    (statusAt s.jobs i = some JobStatus.pending ↔ i ∈ s.queue ∨ i ∈ s.flight)
  src : ∀ i, i < N → statusAt s.jobs i = some JobStatus.pending ∨
    statusAt s.jobs i = some (finishStatus (outcome i))
  cnt : s.completed + s.queue.length + s.flight.length = N
  ccnt : s.completed = s.jobs.countP (fun x => isTerminal x.2)
  live : s.queue ≠ [] → 0 < s.flight.length + s.nIdle

theorem inv_app_nodup {K N : Nat} {outcome : Nat → GenResult} {s : DState}
    (hI : DInv K N outcome s) : (s.claims ++ s.queue).Nodup := by
  rw [hI.split]
  exact List.nodup_range N

theorem inv_disj {K N : Nat} {outcome : Nat → GenResult} {s : DState}
    (hI : DInv K N outcome s) : ∀ x ∈ s.claims, x ∉ s.queue :=
  (List.nodup_append.mp (inv_app_nodup hI)).2.2

theorem inv_claims_lt {K N : Nat} {outcome : Nat → GenResult} {s : DState}
    (hI : DInv K N outcome s) : ∀ i ∈ s.claims, i < N := by
  intro i hi
  have : i ∈ s.claims ++ s.queue := List.mem_append_left _ hi
  rw [hI.split] at this
  exact List.mem_range.mp this

theorem inv_queue_lt {K N : Nat} {outcome : Nat → GenResult} {s : DState}
    (hI : DInv K N outcome s) : ∀ i ∈ s.queue, i < N := by
  intro i hi
  have : i ∈ s.claims ++ s.queue := List.mem_append_right _ hi
  rw [hI.split] at this
  exact List.mem_range.mp this

theorem inv_jobs_length {K N : Nat} {outcome : Nat → GenResult} {s : DState}
    (hI : DInv K N outcome s) : s.jobs.length = N := by
  have := congrArg List.length hI.ids
  simpa using this

theorem inv_ids_nodup {K N : Nat} {outcome : Nat → GenResult} {s : DState}
    (hI : DInv K N outcome s) : (s.jobs.map Prod.fst).Nodup := by
  rw [hI.ids]
  exact List.nodup_range N

theorem inv_split_length {K N : Nat} {outcome : Nat → GenResult} {s : DState}
    (hI : DInv K N outcome s) : s.claims.length + s.queue.length = N := by
  have := congrArg List.length hI.split
  simpa using this

theorem inv_claims_prefix {K N : Nat} {outcome : Nat → GenResult} {s : DState}
    (hI : DInv K N outcome s) : s.claims = List.range s.claims.length := by
  have h2 := inv_split_length hI
  have h3 : s.claims.length ⊓ N = s.claims.length := by omega
  calc s.claims = (List.range N).take s.claims.length := by rw [← hI.split, List.take_left]
    _ = List.range (s.claims.length ⊓ N) := List.take_range _ _
    _ = List.range s.claims.length := by rw [h3]

theorem inv_queue_nil_of_terminal {K N : Nat} {outcome : Nat → GenResult} {s : DState}
    (hI : DInv K N outcome s) (hf : s.flight = []) (hi : s.nIdle = 0) : s.queue = [] := by
  by_cases hq : s.queue = []
  · exact hq
  · have := hI.live hq
    rw [hf, hi] at this
    simp at this

/-! ## Preservation of the invariant -/

theorem inv_publish {K N : Nat} {outcome : Nat → GenResult} {s : DState}
    (hI : DInv K N outcome s) (p : Nat) (hp : p < s.flight.length) :
    DInv K N outcome (publishAt outcome s p) := by
  set i := s.flight.getD p 0 with hidef
  have hiF : i ∈ s.flight := by
    rw [hidef, List.getD_eq_getElem s.flight 0 hp]
    exact List.getElem_mem hp
  have hiC : i ∈ s.claims := hI.fclaimed i hiF
  have hiN : i < N := inv_claims_lt hI i hiC
  have hiQ : i ∉ s.queue := inv_disj hI i hiC
  have hpend : statusAt s.jobs i = some JobStatus.pending := (hI.pend i hiN).mpr (Or.inr hiF)
  have himem : i ∈ s.jobs.map Prod.fst := by
    rw [hI.ids]
    exact List.mem_range.mpr hiN
  have hnotmem : i ∉ s.flight.eraseIdx p := getD_not_mem_eraseIdx s.flight p hp hI.fnodup
  refine ⟨?_, ?_, ?_, ?_, ?_, ?_, ?_, ?_, ?_, ?_⟩
  · show (s.flight.eraseIdx p).length + (s.nIdle + 1) + s.nDone = K
    have hw := hI.workers
    rw [length_eraseIdx_of_lt s.flight p hp]
    omega
  · show (updateJob s.jobs i (finishStatus (outcome i))).map Prod.fst = List.range N
    rw [map_fst_updateJob, hI.ids]
  · exact hI.split
  · exact List.Nodup.sublist (List.eraseIdx_sublist s.flight p) hI.fnodup
  · exact fun j hj => hI.fclaimed j (mem_of_mem_eraseIdx hj)
  · intro j hj
    show statusAt (updateJob s.jobs i (finishStatus (outcome i))) j = some JobStatus.pending ↔
      j ∈ s.queue ∨ j ∈ s.flight.eraseIdx p
    by_cases hji : j = i
    · rw [hji, statusAt_updateJob_self s.jobs i _ himem]
      constructor
      · intro h
        exact absurd (Option.some.inj h) (finishStatus_ne_pending (outcome i))
      · rintro (h | h)
        · exact absurd h hiQ
        · exact absurd h hnotmem
    · rw [statusAt_updateJob_ne s.jobs i _ j hji]
      rw [hI.pend j hj]
      have hmi := mem_eraseIdx_iff_of_ne s.flight p hp j (hidef ▸ hji)
      constructor
      · rintro (h | h)
        · exact Or.inl h
        · exact Or.inr (hmi.mpr h)
      · rintro (h | h)
        · exact Or.inl h
        · exact Or.inr (hmi.mp h)
  · intro j hj
    show statusAt (updateJob s.jobs i (finishStatus (outcome i))) j = some JobStatus.pending ∨
      statusAt (updateJob s.jobs i (finishStatus (outcome i))) j = some (finishStatus (outcome j))
    by_cases hji : j = i
    · rw [hji]
      exact Or.inr (statusAt_updateJob_self s.jobs i _ himem)
    · rw [statusAt_updateJob_ne s.jobs i _ j hji]
      exact hI.src j hj
  · show s.completed + 1 + s.queue.length + (s.flight.eraseIdx p).length = N
    have hc := hI.cnt
    rw [length_eraseIdx_of_lt s.flight p hp]
    omega
  · show s.completed + 1 =
      (updateJob s.jobs i (finishStatus (outcome i))).countP (fun x => isTerminal x.2)
    rw [countP_updateJob s.jobs i _ (inv_ids_nodup hI) hpend (isTerminal_finishStatus _),
      ← hI.ccnt]
  · intro hq
    have := hI.live hq
    show 0 < (s.flight.eraseIdx p).length + (s.nIdle + 1)
    omega

theorem inv_proceed {K N : Nat} {outcome : Nat → GenResult} {s : DState}
    (hI : DInv K N outcome s) (h : 0 < s.nIdle) :
    DInv K N outcome (proceedIdle s) := by
  rcases hq : s.queue with _ | ⟨j, rest⟩
  · have hps : proceedIdle s =
        { s with nIdle := s.nIdle - 1, nDone := s.nDone + 1 } := by
      unfold proceedIdle
      rw [hq]
    rw [hps]
    refine ⟨?_, hI.ids, hI.split, hI.fnodup, hI.fclaimed, hI.pend, hI.src, hI.cnt,
      hI.ccnt, ?_⟩
    · show s.flight.length + (s.nIdle - 1) + (s.nDone + 1) = K
      have := hI.workers
      omega
    · intro hqne
      exact absurd hq hqne
  · have hps : proceedIdle s =
        { s with queue := rest, nIdle := s.nIdle - 1,
                 flight := s.flight ++ [j], claims := s.claims ++ [j] } := by
      unfold proceedIdle
      rw [hq]
    have hjQ : j ∈ s.queue := by
      rw [hq]
      exact List.mem_cons_self _ _
    have hjN : j < N := inv_queue_lt hI j hjQ
    have hjF : j ∉ s.flight := fun hf => inv_disj hI j (hI.fclaimed j hf) hjQ
    rw [hps]
    refine ⟨?_, hI.ids, ?_, ?_, ?_, ?_, hI.src, ?_, hI.ccnt, ?_⟩
    · show (s.flight ++ [j]).length + (s.nIdle - 1) + s.nDone = K
      have hw := hI.workers
      simp only [List.length_append, List.length_cons, List.length_nil,
        List.length_singleton] at hw ⊢
      omega
    · show (s.claims ++ [j]) ++ rest = List.range N
      rw [List.append_assoc, List.singleton_append, ← hq, hI.split]
    · show (s.flight ++ [j]).Nodup
      rw [List.nodup_append]
      refine ⟨hI.fnodup, List.nodup_singleton j, ?_⟩
      intro x hx hx2
      rw [List.mem_singleton] at hx2
      exact hjF (hx2 ▸ hx)
    · intro x hx
      rcases List.mem_append.mp hx with hx | hx
      · exact List.mem_append_left _ (hI.fclaimed x hx)
      · exact List.mem_append_right _ hx
    · intro x hx
      rw [hI.pend x hx, hq]
      simp only [List.mem_cons, List.mem_append, List.mem_singleton, List.not_mem_nil,
        or_false]
      tauto
    · show s.completed + rest.length + (s.flight ++ [j]).length = N
      have hc := hI.cnt
      rw [hq] at hc
      simp only [List.length_append, List.length_cons, List.length_nil,
        List.length_singleton] at hc ⊢
      omega
    · intro hqne
      show 0 < (s.flight ++ [j]).length + (s.nIdle - 1)
      simp only [List.length_append, List.length_cons, List.length_nil,
        List.length_singleton]
      omega

theorem inv_step {K N : Nat} {outcome : Nat → GenResult} {s t : DState}
    (hI : DInv K N outcome s) (hstep : StepRel outcome s t) : DInv K N outcome t := by
  cases hstep with
  | publish p hp => exact inv_publish hI p hp
  | proceed h => exact inv_proceed hI h

/-! ## The launch-phase invariant -/

/-- Invariant after the first `k` of the `K` worker creations. -/
structure LInv (N : Nat) (outcome : Nat → GenResult) (k : Nat) (s : DState) : Prop where
  ids : s.jobs.map Prod.fst = List.range N
  split : s.claims ++ s.queue = List.range N
  fnodup : s.flight.Nodup
  fclaimed : ∀ i ∈ s.flight, i ∈ s.claims
  pend : ∀ i, i < N →
    (statusAt s.jobs i = some JobStatus.pending ↔ i ∈ s.queue ∨ i ∈ s.flight)
  src : ∀ i, i < N → statusAt s.jobs i = some JobStatus.pending ∨
    statusAt s.jobs i = some (finishStatus (outcome i))
  cnt : s.completed + s.queue.length + s.flight.length = N
  ccnt : s.completed = s.jobs.countP (fun x => isTerminal x.2)
  idle0 : s.nIdle = 0
  comp0 : s.completed = 0
  flen : s.flight.length = min k N
  dlen : s.nDone = k - min k N

theorem linv_init (N : Nat) (outcome : Nat → GenResult) :
    LInv N outcome 0 (initState N) := by
  refine ⟨?_, ?_, ?_, ?_, ?_, ?_, ?_, ?_, rfl, rfl, ?_, ?_⟩
  · show ((List.range N).map (fun i => (i, JobStatus.pending))).map Prod.fst = List.range N
    rw [List.map_map]
    show List.map (fun i => i) (List.range N) = List.range N
    exact List.map_id _
  · show [] ++ List.range N = List.range N
    rw [List.nil_append]
  · exact List.nodup_nil
  · intro i hi
    simp [initState] at hi
  · intro i hi
    show statusAt ((List.range N).map (fun j => (j, JobStatus.pending))) i =
        some JobStatus.pending ↔ i ∈ List.range N ∨ i ∈ ([] : List Nat)
    rw [statusAt_const]
    simp [List.mem_range, hi]
  · intro i hi
    refine Or.inl ?_
    show statusAt ((List.range N).map (fun j => (j, JobStatus.pending))) i =
        some JobStatus.pending
    rw [statusAt_const]
    simp [List.mem_range, hi]
  · show 0 + (List.range N).length + ([] : List Nat).length = N
    simp
  · show 0 = ((List.range N).map (fun i => (i, JobStatus.pending))).countP
      (fun x => isTerminal x.2)
    symm
    rw [List.countP_eq_zero]
    intro a ha
    rw [List.mem_map] at ha
    obtain ⟨j, _, rfl⟩ := ha
    simp [isTerminal]
  · show ([] : List Nat).length = min 0 N
    simp
  · show 0 = 0 - min 0 N
    simp

theorem linv_spawn {N : Nat} {outcome : Nat → GenResult} {k : Nat} {s : DState}
    (hL : LInv N outcome k s) : LInv N outcome (k + 1) (spawn s) := by
  rcases hq : s.queue with _ | ⟨j, rest⟩
  · have hkN : N ≤ k := by
      have hc := hL.cnt
      have hf := hL.flen
      rw [hq, hL.comp0] at hc
      simp at hc
      omega
    have hps : spawn s = { s with nDone := s.nDone + 1 } := by
      unfold spawn
      rw [hq]
    rw [hps]
    refine ⟨hL.ids, hL.split, hL.fnodup, hL.fclaimed, hL.pend, hL.src, hL.cnt, hL.ccnt,
      hL.idle0, hL.comp0, ?_, ?_⟩
    · show s.flight.length = min (k + 1) N
      rw [hL.flen]
      omega
    · show s.nDone + 1 = (k + 1) - min (k + 1) N
      rw [hL.dlen]
      omega
  · have hkN : k < N := by
      have hc := hL.cnt
      have hf := hL.flen
      rw [hq, hL.comp0] at hc
      simp only [List.length_cons] at hc
      omega
    have hps : spawn s =
        { s with queue := rest, flight := s.flight ++ [j], claims := s.claims ++ [j] } := by
      unfold spawn
      rw [hq]
    have hjQ : j ∈ s.queue := by
      rw [hq]
      exact List.mem_cons_self _ _
    have happ : (s.claims ++ s.queue).Nodup := by
      rw [hL.split]
      exact List.nodup_range N
    have hdisj : ∀ x ∈ s.claims, x ∉ s.queue := (List.nodup_append.mp happ).2.2
    have hjF : j ∉ s.flight := fun hf => hdisj j (hL.fclaimed j hf) hjQ
    rw [hps]
    refine ⟨hL.ids, ?_, ?_, ?_, ?_, hL.src, ?_, hL.ccnt, hL.idle0, hL.comp0, ?_, ?_⟩
    · show (s.claims ++ [j]) ++ rest = List.range N
      rw [List.append_assoc, List.singleton_append, ← hq, hL.split]
    · show (s.flight ++ [j]).Nodup
      rw [List.nodup_append]
      refine ⟨hL.fnodup, List.nodup_singleton j, ?_⟩
      intro x hx hx2
      rw [List.mem_singleton] at hx2
      exact hjF (hx2 ▸ hx)
    · intro x hx
      rcases List.mem_append.mp hx with hx | hx
      · exact List.mem_append_left _ (hL.fclaimed x hx)
      · exact List.mem_append_right _ hx
    · intro x hx
      rw [hL.pend x hx, hq]
      simp only [List.mem_cons, List.mem_append, List.mem_singleton, List.not_mem_nil,
        or_false]
      tauto
    · show s.completed + rest.length + (s.flight ++ [j]).length = N
      have hc := hL.cnt
      rw [hq] at hc
      simp only [List.length_append, List.length_cons, List.length_nil,
        List.length_singleton] at hc ⊢
      omega
    · show (s.flight ++ [j]).length = min (k + 1) N
      have hf := hL.flen
      simp only [List.length_append, List.length_cons, List.length_nil,
        List.length_singleton]
      omega
    · show s.nDone = (k + 1) - min (k + 1) N
      rw [hL.dlen]
      omega

theorem linv_launch (N : Nat) (outcome : Nat → GenResult) (k : Nat) :
    LInv N outcome k (spawnN k (initState N)) := by
  induction k with
  | zero => exact linv_init N outcome
  | succ k ih => exact linv_spawn ih

theorem inv_launch {K N : Nat} {outcome : Nat → GenResult} (hK : 1 ≤ K) :
    DInv K N outcome (launchState K N) := by
  unfold launchState
  have hL := linv_launch N outcome K
  refine ⟨?_, hL.ids, hL.split, hL.fnodup, hL.fclaimed, hL.pend, hL.src, hL.cnt,
    hL.ccnt, ?_⟩
  · rw [hL.flen, hL.idle0, hL.dlen]
    have := Nat.min_le_left K N
    omega
  · intro hq
    have hc := hL.cnt
    have hf := hL.flen
    have hql : 0 < (spawnN K (initState N)).queue.length := by
      rcases hqe : (spawnN K (initState N)).queue with _ | ⟨a, b⟩
    
      · exact absurd hqe hq
      · simp
    rw [hL.comp0] at hc
    rw [hL.flen, hL.idle0]
    omega

theorem inv_reach {K N : Nat} {outcome : Nat → GenResult} {s : DState}
    (hK : 1 ≤ K) (hs : Reach outcome K N s) : DInv K N outcome s := by
  unfold Reach StepsTo at hs
  induction hs with
  | refl => exact inv_launch hK
  | tail _ hbc ih => exact inv_step ih hbc

/-! ## Termination and progress -/

/-- Strictly decreasing step measure: each atomic step either removes a queue
entry, retires an in-flight call, or retires an idle worker. -/
def dMeasure (s : DState) : Nat :=
  3 * s.queue.length + 2 * s.flight.length + s.nIdle

theorem dMeasure_publish (outcome : Nat → GenResult) {s : DState} {p : Nat}
    (hp : p < s.flight.length) : dMeasure (publishAt outcome s p) < dMeasure s := by
  show 3 * s.queue.length + 2 * (s.flight.eraseIdx p).length + (s.nIdle + 1) < dMeasure s
  rw [length_eraseIdx_of_lt s.flight p hp]
  unfold dMeasure
  omega

theorem dMeasure_proceed {s : DState} (h : 0 < s.nIdle) :
    dMeasure (proceedIdle s) < dMeasure s := by
  rcases hq : s.queue with _ | ⟨j, rest⟩
  · have hps : proceedIdle s = { s with nIdle := s.nIdle - 1, nDone := s.nDone + 1 } := by
      unfold proceedIdle
      rw [hq]
    rw [hps]
    unfold dMeasure
    simp only
    omega
  · have hps : proceedIdle s =
        { s with queue := rest, nIdle := s.nIdle - 1,
                 flight := s.flight ++ [j], claims := s.claims ++ [j] } := by
      unfold proceedIdle
      rw [hq]
    rw [hps]
    unfold dMeasure
    simp only [List.length_append, List.length_cons, List.length_nil, hq]
    omega

theorem steps_to_terminal (outcome : Nat → GenResult) :
    ∀ m s, dMeasure s ≤ m → ∃ t, StepsTo outcome s t ∧ t.flight = [] ∧ t.nIdle = 0 := by
  intro m
  induction m with
  | zero =>
    intro s hs
    unfold dMeasure at hs
    refine ⟨s, Relation.ReflTransGen.refl, ?_, ?_⟩
    · have : s.flight.length = 0 := by omega
      exact List.length_eq_zero.mp this
    · omega
  | succ m ih =>
    intro s hs
    by_cases hf : s.flight.length = 0
    · by_cases hi : s.nIdle = 0
      · exact ⟨s, Relation.ReflTransGen.refl, List.length_eq_zero.mp hf, hi⟩
      · have hpos : 0 < s.nIdle := Nat.pos_of_ne_zero hi
        have hstep : StepRel outcome s (proceedIdle s) := StepRel.proceed s hpos
        have hlt := dMeasure_proceed hpos
        obtain ⟨t, ht, h1, h2⟩ := ih (proceedIdle s) (by omega)
        exact ⟨t, Relation.ReflTransGen.head hstep ht, h1, h2⟩
    · have hpos : 0 < s.flight.length := Nat.pos_of_ne_zero hf
      have hstep : StepRel outcome s (publishAt outcome s 0) := StepRel.publish s 0 hpos
      have hlt := dMeasure_publish outcome hpos
      obtain ⟨t, ht, h1, h2⟩ := ih (publishAt outcome s 0) (by omega)
      exact ⟨t, Relation.ReflTransGen.head hstep ht, h1, h2⟩

theorem run_progress (outcome : Nat → GenResult) (s : DState) :
    (s.flight = [] ∧ s.nIdle = 0) ∨ ∃ t, StepRel outcome s t := by
  by_cases hf : s.flight.length = 0
  · by_cases hi : s.nIdle = 0
    · exact Or.inl ⟨List.length_eq_zero.mp hf, hi⟩
    · exact Or.inr ⟨proceedIdle s, StepRel.proceed s (Nat.pos_of_ne_zero hi)⟩
  · exact Or.inr ⟨publishAt outcome s 0, StepRel.publish s 0 (Nat.pos_of_ne_zero hf)⟩

/-! ## Reachability constructors and small facts used by the claims -/

theorem reach_launch {outcome : Nat → GenResult} {K N : Nat} :
    Reach outcome K N (launchState K N) :=
  Relation.ReflTransGen.refl

theorem reach_publish {outcome : Nat → GenResult} {K N : Nat} {s : DState}
    (h : Reach outcome K N s) (p : Nat) (hp : p < s.flight.length) :
    Reach outcome K N (publishAt outcome s p) :=
  Relation.ReflTransGen.tail h (StepRel.publish s p hp)

theorem reach_proceed {outcome : Nat → GenResult} {K N : Nat} {s : DState}
    (h : Reach outcome K N s) (hi : 0 < s.nIdle) :
    Reach outcome K N (proceedIdle s) :=
  Relation.ReflTransGen.tail h (StepRel.proceed s hi)

theorem proceedIdle_jobs (s : DState) : (proceedIdle s).jobs = s.jobs := by
  rcases hq : s.queue with _ | ⟨a, b⟩
  · unfold proceedIdle
    rw [hq]
  · unfold proceedIdle
    rw [hq]

/-! ## Claim C1 -/

/-- **C1.** For every `N ≥ 1` and concurrency `K ≥ 1`: at any suspension
point of a run, (a) if the run has terminated (no worker in flight or idle,
so `Promise.all` has resolved), then exactly `N` jobs exist, every job's
status is `done` or `error` (the count of terminal jobs is `N`, so none is
`pending`), the shared `completedCount` equals `N`, the queue is drained, and
`isLoading` has been set to `false` (the `Completed` global state); (b) the
run is never stuck in a non-terminal state (it has no failure state); and
(c) a terminal state is always reachable by continuing the run. -/
theorem c1_run_completion (N K : Nat) (outcome : Nat → GenResult)
    (hN : 1 ≤ N) (hK : 1 ≤ K) (s : DState) (hs : Reach outcome K N s) :
    ((s.flight = [] ∧ s.nIdle = 0) →
      s.jobs.length = N ∧ s.jobs.countP (fun x => isTerminal x.2) = N ∧
      s.completed = N ∧ s.queue = [] ∧ isLoadingAfter s = false) ∧
    ((s.flight = [] ∧ s.nIdle = 0) ∨ ∃ t, StepRel outcome s t) ∧
    (∃ t, StepsTo outcome s t ∧ t.flight = [] ∧ t.nIdle = 0) := by
  have hI := inv_reach hK hs
  refine ⟨?_, run_progress outcome s, steps_to_terminal outcome (dMeasure s) s le_rfl⟩
  rintro ⟨hf, hi⟩
  have hqnil := inv_queue_nil_of_terminal hI hf hi
  have hlen := inv_jobs_length hI
  have hcomp : s.completed = N := by
    have hc := hI.cnt
    rw [hqnil, hf] at hc
    simpa using hc
  refine ⟨hlen, ?_, hcomp, hqnil, ?_⟩
  · rw [← hI.ccnt]
    exact hcomp
  · unfold isLoadingAfter
    rw [hf, hi]
    rfl

theorem c1_run_completion_witness :
    (proceedIdle (publishAt (fun _ => GenResult.ok "u") (launchState 1 1) 0)).jobs.length = 1 ∧
    (proceedIdle (publishAt (fun _ => GenResult.ok "u") (launchState 1 1) 0)).jobs.countP
      (fun x => isTerminal x.2) = 1 ∧
    (proceedIdle (publishAt (fun _ => GenResult.ok "u") (launchState 1 1) 0)).completed = 1 ∧
    (proceedIdle (publishAt (fun _ => GenResult.ok "u") (launchState 1 1) 0)).queue = [] ∧
    isLoadingAfter (proceedIdle (publishAt (fun _ => GenResult.ok "u") (launchState 1 1) 0)) =
      false := by
  have h := c1_run_completion 1 1 (fun _ => GenResult.ok "u") (by decide) (by decide)
    (proceedIdle (publishAt (fun _ => GenResult.ok "u") (launchState 1 1) 0))
    (reach_proceed (reach_publish reach_launch 0 (by decide)) (by decide))
  exact h.1 ⟨by decide, by decide⟩

/-! ## Claim C2 -/

/-- **C2.** In every reachable state of a run with `N` jobs, the history of
indices dequeued by workers (`claims`, in dequeue order) is literally
`[0, 1, …, c-1]`: successive claims are in ascending index order and no index
is ever claimed twice; together with the still-unclaimed queue it is exactly
`[0, N)`; and once the run has terminated every index of `[0, N)` has been
claimed exactly once. -/
theorem c2_claims_partition (N K : Nat) (outcome : Nat → GenResult)
    (hN : 1 ≤ N) (hK : 1 ≤ K) (s : DState) (hs : Reach outcome K N s) :
    s.claims = List.range s.claims.length ∧
    s.claims ++ s.queue = List.range N ∧
    s.claims.Nodup ∧
    ((s.flight = [] ∧ s.nIdle = 0) → s.claims = List.range N) := by
  have hI := inv_reach hK hs
  have hpre := inv_claims_prefix hI
  refine ⟨hpre, hI.split, ?_, ?_⟩
  · rw [hpre]
    exact List.nodup_range _
  · rintro ⟨hf, hi⟩
    have hq := inv_queue_nil_of_terminal hI hf hi
    have hsp := hI.split
    rw [hq, List.append_nil] at hsp
    exact hsp

theorem c2_claims_partition_witness :
    (proceedIdle (publishAt (fun _ => GenResult.ok "u")
      (proceedIdle (publishAt (fun _ => GenResult.ok "u") (launchState 1 2) 0)) 0)).claims =
      List.range 2 := by
  have h := c2_claims_partition 2 1 (fun _ => GenResult.ok "u") (by decide) (by decide)
    (proceedIdle (publishAt (fun _ => GenResult.ok "u")
      (proceedIdle (publishAt (fun _ => GenResult.ok "u") (launchState 1 2) 0)) 0))
    (reach_proceed (reach_publish (reach_proceed (reach_publish reach_launch 0 (by decide))
      (by decide)) 0 (by decide)) (by decide))
  exact h.2.2.2 ⟨by decide, by decide⟩

/-! ## Claim C3 -/

/-- **C3.** For every run with `N` jobs and concurrency limit `K`: right
after the synchronous launch phase exactly `min K N` workers hold a claimed
job in flight (the other workers found the queue empty and returned at once);
the `K` worker slots always account for all workers; and at every suspension
point at most `K` jobs are in flight (claimed but not yet terminal). -/
theorem c3_worker_bound (N K : Nat) (outcome : Nat → GenResult)
    (hN : 1 ≤ N) (hK : 1 ≤ K) (s : DState) (hs : Reach outcome K N s) :
    (launchState K N).flight.length = min K N ∧
    s.flight.length ≤ K ∧
    s.flight.length + s.nIdle + s.nDone = K := by
  have hI := inv_reach hK hs
  have hL := linv_launch N outcome K
  refine ⟨?_, ?_, hI.workers⟩
  · show (spawnN K (initState N)).flight.length = min K N
    exact hL.flen
  · have hw := hI.workers
    omega

theorem c3_worker_bound_witness :
    (launchState 5 2).flight.length = min 5 2 ∧
    (launchState 5 2).flight.length ≤ 5 ∧
    (launchState 5 2).flight.length + (launchState 5 2).nIdle + (launchState 5 2).nDone = 5 :=
  c3_worker_bound 2 5 (fun _ => GenResult.ok "u") (by decide) (by decide)
    (launchState 5 2) reach_launch

/-! ## Claim C4 -/

/-- **C4.** At every suspension point of a run: the shared `completedCount`
equals the number of jobs whose status is not `pending` (the count of
terminal entries of `generatedImages`); the job ids are unique and contiguous
over `[0, N)` (the id column is literally `[0, …, N-1]`); and along any
atomic step each job either keeps its status unchanged or moves from
`pending` to a terminal status — so a job transitions at most once, from
`pending` to exactly one of `done`/`error`, with no further transitions. -/
theorem c4_counter_and_single_transition (N K : Nat) (outcome : Nat → GenResult)
    (hN : 1 ≤ N) (hK : 1 ≤ K) (s : DState) (hs : Reach outcome K N s) :
    s.completed = s.jobs.countP (fun x => isTerminal x.2) ∧
    s.jobs.map Prod.fst = List.range N ∧
    (∀ t, StepRel outcome s t → ∀ j : Nat,
      statusAt t.jobs j = statusAt s.jobs j ∨
      (statusAt s.jobs j = some JobStatus.pending ∧
       ∃ st, statusAt t.jobs j = some st ∧ isTerminal st = true)) := by
  have hI := inv_reach hK hs
  refine ⟨hI.ccnt, hI.ids, ?_⟩
  intro t hstep j
  cases hstep with
  | publish p hp =>
    set i := s.flight.getD p 0 with hidef
    have hiF : i ∈ s.flight := by
      rw [hidef, List.getD_eq_getElem s.flight 0 hp]
      exact List.getElem_mem hp
    have hiN : i < N := inv_claims_lt hI i (hI.fclaimed i hiF)
    have himem : i ∈ s.jobs.map Prod.fst := by
      rw [hI.ids]
      exact List.mem_range.mpr hiN
    have hpend : statusAt s.jobs i = some JobStatus.pending :=
      (hI.pend i hiN).mpr (Or.inr hiF)
    by_cases hji : j = i
    · right
      refine ⟨by rw [hji]; exact hpend, finishStatus (outcome i), ?_, isTerminal_finishStatus _⟩
      show statusAt (updateJob s.jobs i (finishStatus (outcome i))) j =
        some (finishStatus (outcome i))
      rw [hji]
      exact statusAt_updateJob_self s.jobs i _ himem
    · left
      show statusAt (updateJob s.jobs i (finishStatus (outcome i))) j = statusAt s.jobs j
      exact statusAt_updateJob_ne s.jobs i _ j hji
  | proceed h =>
    left
    rw [proceedIdle_jobs]

theorem c4_counter_and_single_transition_witness :
    (launchState 5 2).completed =
      (launchState 5 2).jobs.countP (fun x => isTerminal x.2) ∧
    (launchState 5 2).jobs.map Prod.fst = List.range 2 :=
  ⟨(c4_counter_and_single_transition 2 5 (fun _ => GenResult.ok "u") (by decide) (by decide)
      (launchState 5 2) reach_launch).1,
   (c4_counter_and_single_transition 2 5 (fun _ => GenResult.ok "u") (by decide) (by decide)
      (launchState 5 2) reach_launch).2.1⟩

/-! ## Claim C5 -/

/-- Counterexample to **C5** as stated.  The claim asserts that a job whose
generation call throws *any* error ends `Failed` with a *non-empty* message.
The catch clause stores `e.message` verbatim whenever the thrown value is an
`Error`; a thrown `Error` whose own message is empty therefore yields a
terminal `error` status carrying the empty string: in the completed one-job
run below (all workers terminated, counter at 1), job 0 ends in
`JobStatus.error ""` — a `Failed` state whose message has length 0. -/
theorem c5_empty_message_counterexample :
    (proceedIdle (publishAt (fun _ => GenResult.thrown (JSError.errorVal ""))
        (launchState 5 1) 0)).flight = [] ∧
    (proceedIdle (publishAt (fun _ => GenResult.thrown (JSError.errorVal ""))
        (launchState 5 1) 0)).nIdle = 0 ∧
    (proceedIdle (publishAt (fun _ => GenResult.thrown (JSError.errorVal ""))
        (launchState 5 1) 0)).completed = 1 ∧
    statusAt (proceedIdle (publishAt (fun _ => GenResult.thrown (JSError.errorVal ""))
        (launchState 5 1) 0)).jobs 0 = some (JobStatus.error "") ∧
    ("" : String).length = 0 := by
  refine ⟨rfl, rfl, rfl, rfl, rfl⟩

/-- **C5** (amended).  For every job whose generation call throws, the job
ends in `Failed` carrying the captured message — the thrown `Error`'s own
message, or the fixed non-empty fallback text for non-`Error` values (so the
recorded message is non-empty whenever the thrown `Error`'s message is);
no exception escapes the dispatcher (every terminal state is reached purely
through the step relation, and the catch clause converts the throw into a
status update); and the failure prevents no other job from being claimed and
reaching its own terminal state: in the terminated run, all `N` jobs are
terminal and the counter reaches `N`. -/
theorem c5_failure_isolation (N K : Nat) (outcome : Nat → GenResult)
    (hN : 1 ≤ N) (hK : 1 ≤ K) (s : DState) (hs : Reach outcome K N s)
    (hf : s.flight = []) (hid : s.nIdle = 0)
    (i : Nat) (hi : i < N) (e : JSError) (he : outcome i = GenResult.thrown e) :
    statusAt s.jobs i = some (JobStatus.error (errMessage e)) ∧
    (∀ m : String, errMessage (JSError.errorVal m) = m) ∧
    errMessage JSError.otherVal ≠ "" ∧
    s.jobs.countP (fun x => isTerminal x.2) = N ∧
    s.completed = N := by
  have hI := inv_reach hK hs
  have hqnil := inv_queue_nil_of_terminal hI hf hid
  have hstat : statusAt s.jobs i = some (finishStatus (outcome i)) := by
    rcases hI.src i hi with h | h
    · have hm := (hI.pend i hi).mp h
      rw [hqnil, hf] at hm
      simp at hm
    · exact h
  have hcomp : s.completed = N := by
    have hc := hI.cnt
    rw [hqnil, hf] at hc
    simpa using hc
  refine ⟨?_, fun m => rfl, by decide, ?_, hcomp⟩
  · rw [hstat, he]
    rfl
  · rw [← hI.ccnt]
    exact hcomp

theorem c5_failure_isolation_witness :
    statusAt (proceedIdle (proceedIdle (publishAt
        (fun i => if i = 0 then GenResult.thrown (JSError.errorVal "boom")
          else GenResult.ok "u")
        (publishAt (fun i => if i = 0 then GenResult.thrown (JSError.errorVal "boom")
          else GenResult.ok "u") (launchState 5 2) 0) 0))).jobs 0 =
      some (JobStatus.error "boom") ∧
    (proceedIdle (proceedIdle (publishAt
        (fun i => if i = 0 then GenResult.thrown (JSError.errorVal "boom")
          else GenResult.ok "u")
        (publishAt (fun i => if i = 0 then GenResult.thrown (JSError.errorVal "boom")
          else GenResult.ok "u") (launchState 5 2) 0) 0))).jobs.countP
      (fun x => isTerminal x.2) = 2 := by
  have h := c5_failure_isolation 2 5
    (fun i => if i = 0 then GenResult.thrown (JSError.errorVal "boom") else GenResult.ok "u")
    (by decide) (by decide)
    (proceedIdle (proceedIdle (publishAt
        (fun i => if i = 0 then GenResult.thrown (JSError.errorVal "boom")
          else GenResult.ok "u")
        (publishAt (fun i => if i = 0 then GenResult.thrown (JSError.errorVal "boom")
          else GenResult.ok "u") (launchState 5 2) 0) 0)))
    (reach_proceed (reach_proceed (reach_publish (reach_publish reach_launch 0 (by decide))
      0 (by decide)) (by decide)) (by decide))
    (by decide) (by decide) 0 (by decide) (JSError.errorVal "boom") (by decide)
  refine ⟨?_, h.2.2.2.1⟩
  have h0 := h.1
  simpa using h0

/-! ## Claims C6, C7 : prompt assembly and selection policy -/

theorem fileToGenerativePart_ok (s : String) (p : GPart)
    (h : fileToGenerativePart s = Except.ok p) : ∃ d, p = GPart.inlineP d := by
  unfold fileToGenerativePart at h
  rcases hm : dataUrlMatch s with _ | ⟨mime, payload⟩
  · rw [hm] at h
    exact absurd h (by simp)
  · rw [hm] at h
    exact ⟨⟨mime, payload⟩, (Except.ok.inj h).symm⟩

theorem truthy_text_of_trim (g : PoseGuidance) (h : jsTrim (guidanceText g) ≠ "") :
    truthy g.text = true := by
  rcases hx : g.text with _ | s
  · exfalso
    apply h
    unfold guidanceText
    rw [hx]
    rfl
  · by_cases hs : s = ""
    · exfalso
      apply h
      unfold guidanceText
      rw [hx, hs]
      rfl
    · simp [truthy, hs]

/-- **C6.** For every successful call to `generatePosedVariation`, the
assembled parts list is ordered as: the part built from the source model
image first; then, iff a reference or sketch guidance image is present,
exactly one part built from that guidance image (the reference image when it
is truthy, else the sketch image); then exactly one text part, last.  And
when an image-guidance mode is used with a custom instruction that is
non-blank (non-empty after trimming whitespace, the spec's "empty (or
whitespace-only)" convention), the mode-specific fixed guidance clause is
kept and the instruction is appended as a separate refinement clause, not
substituted for the guidance. -/
theorem c6_parts_order (modelImage : String) (g : PoseGuidance) (parts : List GPart)
    (h : generatePosedVariationRequest modelImage g = Except.ok parts) :
    (∃ d, fileToGenerativePart modelImage = Except.ok (GPart.inlineP d) ∧
      parts.head? = some (GPart.inlineP d)) ∧
    (hasGuidanceImage g = true →
      ∃ d1 d2, fileToGenerativePart modelImage = Except.ok (GPart.inlineP d1) ∧
        fileToGenerativePart (if truthy g.referenceImage then g.referenceImage.getD ""
          else g.sketchImage.getD "") = Except.ok (GPart.inlineP d2) ∧
        parts = [GPart.inlineP d1, GPart.inlineP d2, GPart.textP (posePrompt g)]) ∧
    (hasGuidanceImage g = false →
      ∃ d1, fileToGenerativePart modelImage = Except.ok (GPart.inlineP d1) ∧
        parts = [GPart.inlineP d1, GPart.textP (posePrompt g)]) ∧
    parts.getLast? = some (GPart.textP (posePrompt g)) ∧
    ((hasGuidanceImage g = true ∧ jsTrim (guidanceText g) ≠ "") →
      posePrompt g = basePrompt
        ++ (if truthy g.referenceImage then refGuidanceClause else sketchGuidanceClause)
        ++ refinementClause (guidanceText g)) := by
  have hrefine : (hasGuidanceImage g = true ∧ jsTrim (guidanceText g) ≠ "") →
      posePrompt g = basePrompt
        ++ (if truthy g.referenceImage then refGuidanceClause else sketchGuidanceClause)
        ++ refinementClause (guidanceText g) := by
    rintro ⟨himg, htrim⟩
    have htt := truthy_text_of_trim g htrim
    have hbne : (jsTrim (guidanceText g) == "") = false := beq_eq_false_iff_ne.mpr htrim
    unfold posePrompt modeClause refineSuffix
    unfold hasGuidanceImage at himg
    by_cases href : truthy g.referenceImage = true
    · rw [if_pos href, if_pos href]
      have hcond : ((truthy g.referenceImage || truthy g.sketchImage) && truthy g.text
          && !(jsTrim (guidanceText g) == "")) = true := by
        rw [href, htt, hbne]
        rfl
      rw [if_pos hcond]
    · have hreff : truthy g.referenceImage = false := by
        cases hb : truthy g.referenceImage
        · rfl
        · exact absurd hb href
      have hsk : truthy g.sketchImage = true := by
        rw [Bool.or_eq_true] at himg
        rcases himg with h1 | h1
        · exact absurd h1 href
        · exact h1
      rw [if_neg href, if_neg href, if_pos hsk]
      have hcond : ((truthy g.referenceImage || truthy g.sketchImage) && truthy g.text
          && !(jsTrim (guidanceText g) == "")) = true := by
        rw [hreff, hsk, htt, hbne]
        rfl
      rw [if_pos hcond]
  unfold generatePosedVariationRequest at h
  split at h
  · exact absurd h (by simp)
  next mp hmp =>
    obtain ⟨d, hd⟩ := fileToGenerativePart_ok _ _ hmp
    subst hd
    split at h
    next href =>
      split at h
      · exact absurd h (by simp)
      next gp hrp =>
        obtain ⟨d2, hd2⟩ := fileToGenerativePart_ok _ _ hrp
        subst hd2
        have hp : parts = [GPart.inlineP d, GPart.inlineP d2, GPart.textP (posePrompt g)] :=
          (Except.ok.inj h).symm
        subst hp
        have himg : hasGuidanceImage g = true := by
          unfold hasGuidanceImage
          rw [href]
          rfl
        refine ⟨⟨d, hmp, rfl⟩, fun _ => ⟨d, d2, hmp, ?_, rfl⟩, ?_, rfl, hrefine⟩
        · rw [if_pos href]
          exact hrp
        · intro hfalse
          rw [himg] at hfalse
          exact absurd hfalse (by decide)
    next href =>
      have hreff : truthy g.referenceImage = false := by
        cases hb : truthy g.referenceImage
        · rfl
        · exact absurd hb href
      split at h
      next hsk =>
        split at h
        · exact absurd h (by simp)
        next gp hrp =>
          obtain ⟨d2, hd2⟩ := fileToGenerativePart_ok _ _ hrp
          subst hd2
          have hp : parts = [GPart.inlineP d, GPart.inlineP d2, GPart.textP (posePrompt g)] :=
            (Except.ok.inj h).symm
          subst hp
          have himg : hasGuidanceImage g = true := by
            unfold hasGuidanceImage
            rw [hreff, hsk]
            rfl
          refine ⟨⟨d, hmp, rfl⟩, fun _ => ⟨d, d2, hmp, ?_, rfl⟩, ?_, rfl, hrefine⟩
          · rw [if_neg href]
            exact hrp
          · intro hfalse
            rw [himg] at hfalse
            exact absurd hfalse (by decide)
      next hsk =>
        have hskf : truthy g.sketchImage = false := by
          cases hb : truthy g.sketchImage
          · rfl
          · exact absurd hb hsk
        have hp : parts = [GPart.inlineP d, GPart.textP (posePrompt g)] :=
          (Except.ok.inj h).symm
        subst hp
        have himg : hasGuidanceImage g = false := by
          unfold hasGuidanceImage
          rw [hreff, hskf]
          rfl
        refine ⟨⟨d, hmp, rfl⟩, ?_, fun _ => ⟨d, hmp, rfl⟩, rfl, hrefine⟩
        intro htrue
        rw [himg] at htrue
        exact absurd htrue (by decide)

set_option maxRecDepth 20000 in
theorem c6_parts_order_witness :
    (∃ d, fileToGenerativePart "data:image/png;base64,AAA=" = Except.ok (GPart.inlineP d) ∧
      ([GPart.inlineP ⟨"image/png", "AAA="⟩, GPart.inlineP ⟨"image/png", "BBB="⟩,
        GPart.textP (posePrompt { text := some "blue light", referenceImage := some "data:image/png;base64,BBB=" })] :
          List GPart).head? = some (GPart.inlineP d)) ∧
    posePrompt { text := some "blue light", referenceImage := some "data:image/png;base64,BBB=" } =
      basePrompt ++ refGuidanceClause ++ refinementClause "blue light" := by
  have h := c6_parts_order "data:image/png;base64,AAA="
    { text := some "blue light", referenceImage := some "data:image/png;base64,BBB=" }
    [GPart.inlineP ⟨"image/png", "AAA="⟩, GPart.inlineP ⟨"image/png", "BBB="⟩,
      GPart.textP (posePrompt { text := some "blue light", referenceImage := some "data:image/png;base64,BBB=" })] rfl
  refine ⟨h.1, ?_⟩
  have h5 := h.2.2.2.2 ⟨rfl, by decide⟩
  exact h5

/-- **C7.** The per-run prompt list of `handleGenerate` in `Text` mode: when
the custom prompt is non-blank (`customPrompt.trim() !== ''`), every one of
the `N` jobs uses exactly that text; when it is empty or whitespace-only,
each job's pose description is drawn independently (one draw per array
position, with replacement) from the fixed catalog `RANDOM_POSES` under the
stubbed random source, the drawn string is always a member of the catalog,
and the catalog is non-empty. -/
theorem c7_text_mode_prompt_policy (cp : String) (N : Nat)
    (rand : Nat → Fin RANDOM_POSES.length) :
    RANDOM_POSES ≠ [] ∧
    (jsTrim cp ≠ "" →
      promptsFor cp N rand = List.replicate N cp ∧
      ∀ i, i < N → (promptsFor cp N rand).getD i "" = cp) ∧
    (jsTrim cp = "" →
      (promptsFor cp N rand).length = N ∧
      (∀ i, i < N → (promptsFor cp N rand).getD i "" = RANDOM_POSES.get (rand i)) ∧
      (∀ i : Nat, RANDOM_POSES.get (rand i) ∈ RANDOM_POSES)) := by
  refine ⟨by decide, ?_, ?_⟩
  · intro h
    have hbne : (jsTrim cp == "") = false := beq_eq_false_iff_ne.mpr h
    have hrepl : promptsFor cp N rand = List.replicate N cp := by
      unfold promptsFor
      rw [hbne]
      rfl
    refine ⟨hrepl, ?_⟩
    intro i hi
    rw [hrepl, List.getD_eq_getElem _ _ (by simpa using hi), List.getElem_replicate]
  · intro h
    have hbe : (jsTrim cp == "") = true := beq_iff_eq.mpr h
    have hmap : promptsFor cp N rand =
        (List.range N).map (fun i => RANDOM_POSES.get (rand i)) := by
      unfold promptsFor
      rw [hbe]
      rfl
    refine ⟨?_, ?_, fun i => List.get_mem _ _ _⟩
    · rw [hmap]
      simp
    · intro i hi
      rw [hmap, List.getD_eq_getElem _ _ (by simpa using hi)]
      rw [List.getElem_map, List.getElem_range]

theorem c7_text_mode_prompt_policy_witness :
    (jsTrim "side profile" ≠ "" ∧
      promptsFor "side profile" 2 poseDraw3 = ["side profile", "side profile"]) ∧
    (jsTrim " " = "" ∧
      (promptsFor " " 2 poseDraw3).getD 0 "" = RANDOM_POSES.get (poseDraw3 0) ∧
      RANDOM_POSES.get (poseDraw3 0) ∈ RANDOM_POSES) ∧
    (jsTrim "\u2009" = "" ∧
      (promptsFor "\u2009" 2 poseDraw3).getD 0 "" = RANDOM_POSES.get (poseDraw3 0)) := by
  refine ⟨?_, ?_, ?_⟩
  · refine ⟨by decide, ?_⟩
    have h := (c7_text_mode_prompt_policy "side profile" 2 poseDraw3).2.1 (by decide)
    rw [h.1]
    rfl
  · refine ⟨by decide, ?_, ?_⟩
    · exact ((c7_text_mode_prompt_policy " " 2 poseDraw3).2.2 (by decide)).2.1 0 (by decide)
    · exact ((c7_text_mode_prompt_policy " " 2 poseDraw3).2.2 (by decide)).2.2 0
  · refine ⟨by decide, ?_⟩
    exact ((c7_text_mode_prompt_policy "\u2009" 2 poseDraw3).2.2 (by decide)).2.1 0 (by decide)

/-! ## Claim C8 : response image extraction -/

theorem firstInline_none (l : List GPart) (h : ∀ q ∈ l, isInlinePart q = false) :
    firstInline l = none := by
  induction l with
  | nil => rfl
  | cons a tl ih =>
    cases a with
    | inlineP d => exact absurd (h _ (List.mem_cons_self _ _)) (by simp [isInlinePart])
    | textP t =>
      show firstInline tl = none
      exact ih (fun q hq => h q (List.mem_cons_of_mem _ hq))

theorem firstInline_append (pre : List GPart) (h : ∀ q ∈ pre, isInlinePart q = false)
    (d : InlineData) (rest : List GPart) :
    firstInline (pre ++ GPart.inlineP d :: rest) = some d := by
  induction pre with
  | nil => rfl
  | cons a tl ih =>
    cases a with
    | inlineP d0 => exact absurd (h _ (List.mem_cons_self _ _)) (by simp [isInlinePart])
    | textP t =>
      show firstInline (tl ++ GPart.inlineP d :: rest) = some d
      exact ih (fun q hq => h q (List.mem_cons_of_mem _ hq))

/-- **C8.** `extractImageData` scans the response parts in order: if the
parts are some prefix without inline data followed by an inline image part,
the result is that first inline part re-encoded as the data URI
`data:<mime>;base64,<payload>`; if no part carries inline data, the call
fails with the `GenerationRefused` message carrying the stop reason whenever
the stop reason is neither `"STOP"` nor `"MAX_TOKENS"`, and otherwise fails
with the `NoImageProduced` message. -/
theorem c8_extraction (pre par : List GPart) (d : InlineData) (reason : String) :
    ((∀ q ∈ pre, isInlinePart q = false) →
      extractImageData ⟨pre ++ GPart.inlineP d :: par, reason⟩ =
        Except.ok ("data:" ++ d.mimeType ++ ";base64," ++ d.data)) ∧
    ((∀ q ∈ pre, isInlinePart q = false) → reason ≠ "STOP" → reason ≠ "MAX_TOKENS" →
      extractImageData ⟨pre, reason⟩ = Except.error (refusedMessage reason)) ∧
    ((∀ q ∈ pre, isInlinePart q = false) → (reason = "STOP" ∨ reason = "MAX_TOKENS") →
      extractImageData ⟨pre, reason⟩ = Except.error noImageMessage) := by
  refine ⟨?_, ?_, ?_⟩
  · intro h
    simp only [extractImageData, firstInline_append pre h d par]
  · intro h h1 h2
    have hn := firstInline_none pre h
    have hb1 : (reason == "STOP") = false := beq_eq_false_iff_ne.mpr h1
    have hb2 : (reason == "MAX_TOKENS") = false := beq_eq_false_iff_ne.mpr h2
    simp only [extractImageData, hn, hb1, hb2]
    rfl
  · intro h h12
    have hn := firstInline_none pre h
    rcases h12 with rfl | rfl
    · simp only [extractImageData, hn]
      rfl
    · simp only [extractImageData, hn]
      rfl

theorem c8_extraction_witness :
    extractImageData ⟨[GPart.inlineP ⟨"image/png", "AAA="⟩], "STOP"⟩ =
      Except.ok "data:image/png;base64,AAA=" ∧
    extractImageData ⟨[], "SAFETY"⟩ = Except.error (refusedMessage "SAFETY") ∧
    extractImageData ⟨[], "STOP"⟩ = Except.error noImageMessage := by
  refine ⟨?_, ?_, ?_⟩
  · exact (c8_extraction [] [] ⟨"image/png", "AAA="⟩ "STOP").1 (by simp)
  · exact (c8_extraction [] [] ⟨"image/png", "AAA="⟩ "SAFETY").2.1 (by simp) (by decide)
      (by decide)
  · exact (c8_extraction [] [] ⟨"image/png", "AAA="⟩ "STOP").2.2 (by simp) (Or.inl rfl)

/-! ## Claim C9 : malformed source image -/

/-- Counterexample to **C9** as stated.  The claim requires the client to
fail with `InvalidInput` before any network call whenever the source image's
payload is not valid base64.  The only validation the code performs is the
regular expression of `fileToGenerativePart`, whose payload group `(.*)`
accepts anything: for the source `data:image/png;base64,!!!!` — whose payload
`!!!!` is not valid base64 — request assembly succeeds, so the network call
is made instead of failing fast. -/
theorem c9_invalid_base64_counterexample :
    specValidBase64 "!!!!" = false ∧
    (generatePosedVariationRequest "data:image/png;base64,!!!!" {}).isOk = true :=
  ⟨rfl, rfl⟩

/-- **C9** (amended).  The generation client fails with the
`InvalidInput` error (`Error('Invalid data URL format')`) before any network
call exactly for source images whose data-URL framing is malformed — the
string does not match `^data:(image\/(?:png|jpeg|webp));base64,(.*)$` (an
unsupported MIME type included); the base64 validity of a well-framed payload
is not checked. -/
theorem c9_malformed_framing (modelImage : String) (g : PoseGuidance)
    (h : dataUrlMatch modelImage = none) :
    generatePosedVariationRequest modelImage g = Except.error "Invalid data URL format" := by
  unfold generatePosedVariationRequest fileToGenerativePart
  rw [h]

theorem c9_malformed_framing_witness :
    dataUrlMatch "data:image/gif;base64,AAAA" = none ∧
    generatePosedVariationRequest "data:image/gif;base64,AAAA" {} =
      Except.error "Invalid data URL format" :=
  ⟨rfl, c9_malformed_framing "data:image/gif;base64,AAAA" {} rfl⟩

/-! ## Claim C10 : guidance-image precedence -/

/-- **C10.** When both a reference image and a sketch image are truthy, the
`else if` chain includes only the reference image in the parts (the third
part's text is built from the reference-mode guidance clause, and the parts
are exactly source, reference, text — the sketch appears nowhere); and
whenever any guidance image is present, the pose-guidance clause is one of
the two fixed mode clauses, so `guidance.text` is never the primary pose
instruction — it can only occur inside the optional refinement suffix. -/
theorem c10_reference_precedence (modelImage : String) (g : PoseGuidance) :
    (truthy g.referenceImage = true → truthy g.sketchImage = true →
      modeClause g = refGuidanceClause ∧
      ∀ parts, generatePosedVariationRequest modelImage g = Except.ok parts →
        ∃ d1 d2, fileToGenerativePart modelImage = Except.ok (GPart.inlineP d1) ∧
          fileToGenerativePart (g.referenceImage.getD "") = Except.ok (GPart.inlineP d2) ∧
          parts = [GPart.inlineP d1, GPart.inlineP d2,
            GPart.textP (basePrompt ++ refGuidanceClause ++ refineSuffix g)]) ∧
    (hasGuidanceImage g = true →
      modeClause g = refGuidanceClause ∨ modeClause g = sketchGuidanceClause) := by
  constructor
  · intro href _hsk
    have hmc : modeClause g = refGuidanceClause := by
      unfold modeClause
      rw [if_pos href]
    refine ⟨hmc, ?_⟩
    intro parts h
    unfold generatePosedVariationRequest at h
    split at h
    · exact absurd h (by simp)
    next mp hmp =>
      obtain ⟨d, hd⟩ := fileToGenerativePart_ok _ _ hmp
      subst hd
      rw [if_pos href] at h
      split at h
      · exact absurd h (by simp)
      next gp hrp =>
        obtain ⟨d2, hd2⟩ := fileToGenerativePart_ok _ _ hrp
        subst hd2
        refine ⟨d, d2, hmp, hrp, ?_⟩
        have hpp : posePrompt g = basePrompt ++ refGuidanceClause ++ refineSuffix g := by
          unfold posePrompt
          rw [hmc]
        have hp : parts = [GPart.inlineP d, GPart.inlineP d2, GPart.textP (posePrompt g)] :=
          (Except.ok.inj h).symm
        rw [hp, hpp]
  · intro himg
    unfold hasGuidanceImage at himg
    unfold modeClause
    by_cases href : truthy g.referenceImage = true
    · rw [if_pos href]
      exact Or.inl rfl
    · have hsk : truthy g.sketchImage = true := by
        rw [Bool.or_eq_true] at himg
        rcases himg with h1 | h1
        · exact absurd h1 href
        · exact h1
      rw [if_neg href, if_pos hsk]
      exact Or.inr rfl

set_option maxRecDepth 20000 in
theorem c10_reference_precedence_witness :
    modeClause { referenceImage := some "data:image/png;base64,BB==", sketchImage := some "data:image/png;base64,CC==" } =
      refGuidanceClause ∧
    (∃ d1 d2, fileToGenerativePart "data:image/png;base64,AA==" = Except.ok (GPart.inlineP d1) ∧
      fileToGenerativePart (Option.getD (PoseGuidance.referenceImage { referenceImage := some "data:image/png;base64,BB==", sketchImage := some "data:image/png;base64,CC==" }) "") =
        Except.ok (GPart.inlineP d2) ∧
      [GPart.inlineP ⟨"image/png", "AA=="⟩, GPart.inlineP ⟨"image/png", "BB=="⟩,
        GPart.textP (posePrompt { referenceImage := some "data:image/png;base64,BB==", sketchImage := some "data:image/png;base64,CC==" })] =
        [GPart.inlineP d1, GPart.inlineP d2,
          GPart.textP (basePrompt ++ refGuidanceClause ++ refineSuffix { referenceImage := some "data:image/png;base64,BB==", sketchImage := some "data:image/png;base64,CC==" })]) := by
  have h := (c10_reference_precedence "data:image/png;base64,AA=="
    { referenceImage := some "data:image/png;base64,BB==", sketchImage := some "data:image/png;base64,CC==" }).1
    rfl rfl
  exact ⟨h.1, h.2 [GPart.inlineP ⟨"image/png", "AA=="⟩, GPart.inlineP ⟨"image/png", "BB=="⟩,
    GPart.textP (posePrompt { referenceImage := some "data:image/png;base64,BB==", sketchImage := some "data:image/png;base64,CC==" })] rfl⟩
